import Mathlib

/-!
Shallow embedding of the profiler's sanitization and derived-timing pipeline.

The embedded code comes from two places:
  * src/src/selectors/publish.js       (publish selectors, getRemoveProfileInformation)
  * src/src/test/components/NetworkChart.test.js
      (network-chart phase fixtures, and the appended FlameGraph component with
       SELECTABLE_THRESHOLD, _wideEnough and _nextSelectableInRow)

Parts of the repository that the claims depend on but whose implementation is
not present under src/ (the sanitizePII function, the network-marker phase
engine, getCallNodePathFromIndex and its inverse, and the TIMELINE_MARGIN_LEFT
constant) are modelled from the specification; each such definition carries a
doc comment starting with "Modelled from the spec".

Machine numbers in the source are JS doubles used on small exact values; they
are modelled as rationals, so all arithmetic here is exact.
-/

deriving instance DecidableEq for Except

namespace Profiler

/-- A time range with a start and an end, in milliseconds. -/
structure TimeRange where
  rangeStart : ℚ
  rangeEnd : ℚ
  deriving DecidableEq

/-- One phase box of a network marker bar: pixel offset from the left edge of
the bar, pixel width, and opacity. -/
structure PhaseBox where
  left : ℚ
  width : ℚ
  opacity : ℚ
  deriving DecidableEq

/-- The optional lifecycle timestamps of a network marker payload, matching the
canonical field list of the spec (section 4.4). -/
structure NetworkPayload where
  domainLookupStart : Option ℚ
  domainLookupEnd : Option ℚ
  connectStart : Option ℚ
  tcpConnectEnd : Option ℚ
  secureConnectionStart : Option ℚ
  connectEnd : Option ℚ
  requestStart : Option ℚ
  responseStart : Option ℚ
  responseEnd : Option ℚ
  deriving DecidableEq

/-- A payload carrying none of the lifecycle timestamps. -/
def emptyNetworkPayload : NetworkPayload :=
  ⟨none, none, none, none, none, none, none, none, none⟩

/-- A network marker: start time, end time and its payload. -/
structure NetworkMarker where
  startTime : ℚ
  endTime : ℚ
  payload : NetworkPayload
  deriving DecidableEq

/-- Modelled from the spec: the phase engine (the NetworkChartRowBar component)
is not under src/. True when the payload carries at least one of the
phase-boundary timestamps; when it carries none, the engine renders a single
full-width box (spec section 8, no-detail example). -/
def hasPhaseTimestamps (m : NetworkMarker) : Bool :=
  m.payload.domainLookupStart.isSome || m.payload.requestStart.isSome ||
    m.payload.responseStart.isSome || m.payload.responseEnd.isSome

/-- Modelled from the spec: the ordered phase boundaries of a marker. Each
entry pairs a timestamp with the opacity of the phase that starts there. The
boundaries are the marker start and whichever of domainLookupStart,
requestStart, responseStart, responseEnd are present; this is the boundary set
fixed by the fixture examples of spec section 8 and by the in-repo tests
(the spec's section 4.4 table, which instead uses connectStart, is
inconsistent with those fixtures). -/
def phaseBoundaries (m : NetworkMarker) : List (ℚ × ℚ) :=
  (m.startTime, 0) ::
    ((m.payload.domainLookupStart.map (fun t => (t, (1 : ℚ)/3))).toList ++
      (m.payload.requestStart.map (fun t => (t, (2 : ℚ)/3))).toList ++
      (m.payload.responseStart.map (fun t => (t, (1 : ℚ)))).toList ++
      (m.payload.responseEnd.map (fun t => (t, (0 : ℚ)))).toList)

/-- Pixels per millisecond for a visible range rendered at a given pixel
width; spec section 4.4 pixel conversion. -/
def pxPerMs (r : TimeRange) (pixelWidth : ℚ) : ℚ :=
  pixelWidth / (r.rangeEnd - r.rangeStart)

/-- Modelled from the spec: turn the boundary list into phase boxes. Each
phase runs from its boundary to the next one (the last runs to the marker
end); pixel positions are relative to the left edge of the marker bar. -/
def boxesFromBoundaries (m : NetworkMarker) (k : ℚ) : List (ℚ × ℚ) → List PhaseBox
  | [] => []
  | [(t, o)] => [⟨(t - m.startTime) * k, (m.endTime - t) * k, o⟩]
  | (t1, o1) :: (t2, o2) :: rest =>
      ⟨(t1 - m.startTime) * k, (t2 - t1) * k, o1⟩ ::
        boxesFromBoundaries m k ((t2, o2) :: rest)

/-- Modelled from the spec: the network marker phase engine. Computes the
ordered phase boxes of a marker for a visible range and pixel width, with
pixel offsets relative to the marker bar. A marker with no lifecycle
timestamps renders as a single full-width box at opacity 1 (spec section 8);
otherwise one box per boundary, a missing boundary merging its span into the
neighboring phase. No clipping to the viewport happens here. -/
def computePhases (m : NetworkMarker) (r : TimeRange) (pixelWidth : ℚ) :
    List PhaseBox :=
  let k := pxPerMs r pixelWidth
  if hasPhaseTimestamps m then boxesFromBoundaries m k (phaseBoundaries m)
  else [⟨0, (m.endTime - m.startTime) * k, 1⟩]

/-- Modelled from the spec: the width and absolute left position of the marker
bar itself, using the spec section 4.4 conversion
left = marginLeft + (timestamp - rangeStart) / rangeLength * pixelWidth. -/
def computeBarStyle (m : NetworkMarker) (r : TimeRange)
    (pixelWidth marginLeft : ℚ) : ℚ × ℚ :=
  let k := pxPerMs r pixelWidth
  ((m.endTime - m.startTime) * k, marginLeft + (m.startTime - r.rangeStart) * k)

/-- Modelled from the spec: the TIMELINE_MARGIN_LEFT constant of
app-logic/constants is not under src/. The spec (section 8) states a 30px
margin, but the in-repo test expectations pin the value to 150: the full-range
test expects the bar at left TIMELINE_MARGIN_LEFT, and the committed-range
test over range 20..60 at 5 px per ms expects the same marker's bar at left
100px, which forces TIMELINE_MARGIN_LEFT - 50 = 100. -/
def TIMELINE_MARGIN_LEFT : ℚ := 150

/-- How many of the four optional phase-boundary timestamps are present. -/
def presentBoundaryCount (m : NetworkMarker) : Nat :=
  m.payload.domainLookupStart.toList.length +
    m.payload.requestStart.toList.length +
    m.payload.responseStart.toList.length +
    m.payload.responseEnd.toList.length

/-- The number of phase boxes the engine emits for a marker: one per boundary
when any timestamp is present, and a single box otherwise. -/
def numPhases (m : NetworkMarker) : Nat :=
  if hasPhaseTimestamps m then 1 + presentBoundaryCount m else 1

/-- The full-information fixture marker of the phase tests: startTime 10,
endTime 109, with every lifecycle timestamp present. -/
def fullInfoMarker : NetworkMarker :=
  { startTime := 10
    endTime := 109
    payload :=
      { domainLookupStart := some 20
        domainLookupEnd := some 24
        connectStart := some 25
        tcpConnectEnd := some 26
        secureConnectionStart := some 26
        connectEnd := some 28
        requestStart := some 30
        responseStart := some 60
        responseEnd := some 80 } }

/-- The subset-information fixture marker: only requestStart, responseStart
and responseEnd are present. -/
def subsetInfoMarker : NetworkMarker :=
  { startTime := 10
    endTime := 109
    payload :=
      { emptyNetworkPayload with
        requestStart := some 20
        responseStart := some 60
        responseEnd := some 80 } }

/-- The no-detail fixture marker: only start and end times. -/
def noDetailMarker : NetworkMarker :=
  { startTime := 10, endTime := 109, payload := emptyNetworkPayload }

/-- The full profile range of the phase fixtures: 10 to 110 ms,
rendered at 200 px. -/
def fullProfileRange : TimeRange := ⟨10, 110⟩

/-- The committed sub-range of the boundary-crossing test: 20 to 60 ms. -/
def crossingRange : TimeRange := ⟨20, 60⟩

/-- A string-valued field that the sanitizer may redact; raw values are
identified by a numeric id, and redaction replaces them with a sentinel. -/
inductive SanitizedString
  | raw (id : Nat)
  | redactedSentinel
  deriving DecidableEq

/-- The tagged marker payload variants the sanitizer dispatches on: network
markers carry a URL, screenshot markers are deletable wholesale, preference
markers carry a preference name and captured value. -/
inductive MarkerPayload
  | network (url : SanitizedString)
  | screenshot
  | preferenceRead (prefName : SanitizedString) (prefValue : SanitizedString)
  | genericPayload
  deriving DecidableEq

/-- A marker row: name id, start time, optional end time and payload. -/
structure Marker where
  nameId : Nat
  markerStart : ℚ
  markerEnd : Option ℚ
  data : MarkerPayload
  deriving DecidableEq

/-- A thread: columnar sample times and a marker table. -/
structure Thread where
  samples : List ℚ
  markers : List Marker
  deriving DecidableEq

/-- The profile meta block: start time, product id, sampling interval,
optional extension-identifying metadata and optional originating URL. -/
structure ProfileMeta where
  metaStartTime : ℚ
  product : Nat
  interval : ℚ
  extensions : Option (List SanitizedString)
  originUrl : Option SanitizedString
  deriving DecidableEq

/-- The root profile aggregate: meta block and the ordered thread list. -/
structure Profile where
  meta : ProfileMeta
  threads : List Thread
  deriving DecidableEq

/-- The sanitization directive value object (RemoveProfileInformation in
types/profile-derived): built by getRemoveProfileInformation and consumed by
sanitizePII. -/
structure RemoveProfileInformation where
  shouldFilterToCommittedRange : Option TimeRange
  shouldRemoveUrls : Bool
  shouldRemoveThreadsWithScreenshots : Finset Nat
  shouldRemoveThreads : Finset Nat
  shouldRemoveExtensions : Bool
  shouldRemovePreferenceValues : Bool
  deriving DecidableEq

/-- The result of sanitizePII: the new profile, an optional committed range
that the caller must reset in the url state, and the old-to-new thread index
mapping (none marks a removed thread). -/
structure SanitizeProfileResult where
  profile : Profile
  committedRange : Option TimeRange
  oldThreadIndexToNew : List (Nat × Option Nat)
  deriving DecidableEq

/-- The identity thread-index mapping on a profile with the given number of
threads. -/
def identityThreadMap (numThreads : Nat) : List (Nat × Option Nat) :=
  (List.range numThreads).map (fun i => (i, some i))

/-- Redact the URL of a network payload, leaving other payloads alone. -/
def redactUrlPayload : MarkerPayload → MarkerPayload
  | .network _ => .network .redactedSentinel
  | p => p

/-- Replace the captured preference value with the redaction sentinel,
leaving the preference name intact. -/
def redactPrefValue : MarkerPayload → MarkerPayload
  | .preferenceRead n _ => .preferenceRead n .redactedSentinel
  | p => p

/-- Whether a marker is a screenshot-kind marker. -/
def isScreenshotMarker (m : Marker) : Bool :=
  match m.data with
  | .screenshot => true
  | _ => false

/-- Whether a marker intersects a committed range. -/
def markerIntersectsRange (r : TimeRange) (m : Marker) : Bool :=
  match m.markerEnd with
  | none => decide (r.rangeStart ≤ m.markerStart) && decide (m.markerStart ≤ r.rangeEnd)
  | some e => decide (m.markerStart ≤ r.rangeEnd) && decide (r.rangeStart ≤ e)

/-- Shift a marker so that time zero is the range start. -/
def shiftMarker (r : TimeRange) (m : Marker) : Marker :=
  { m with
    markerStart := m.markerStart - r.rangeStart
    markerEnd := m.markerEnd.map (fun e => e - r.rangeStart) }

/-- Modelled from the spec: per-thread sanitization (part of sanitizePII,
whose implementation in profile-logic/sanitize is not under src/). Deletes
screenshot markers of listed threads, redacts URL-carrying payload fields,
redacts preference values, and clips samples and markers to the committed
range with the time origin shifted to the range start. -/
def sanitizeThread (d : RemoveProfileInformation) (oldThreadIndex : Nat)
    (t : Thread) : Thread :=
  let markers :=
    if oldThreadIndex ∈ d.shouldRemoveThreadsWithScreenshots then
      t.markers.filter (fun m => !isScreenshotMarker m)
    else t.markers
  let markers :=
    if d.shouldRemoveUrls then
      markers.map (fun m => { m with data := redactUrlPayload m.data })
    else markers
  let markers :=
    if d.shouldRemovePreferenceValues then
      markers.map (fun m => { m with data := redactPrefValue m.data })
    else markers
  match d.shouldFilterToCommittedRange with
  | none => { t with markers }
  | some r =>
      { samples :=
          ((t.samples.filter (fun s =>
              decide (r.rangeStart ≤ s) && decide (s ≤ r.rangeEnd))).map
            (fun s => s - r.rangeStart))
        markers := (markers.filter (markerIntersectsRange r)).map (shiftMarker r) }

/-- The new index of a surviving thread: how many smaller indexes survive. -/
def newThreadIndex (d : RemoveProfileInformation) (i : Nat) : Option Nat :=
  if i ∈ d.shouldRemoveThreads then none
  else some ((List.range i).countP (fun j => decide (j ∉ d.shouldRemoveThreads)))

/-- Modelled from the spec: sanitizePII of profile-logic/sanitize is not
under src/. A null directive is the identity fast path: the input profile is
returned unchanged with a null committed range and the identity thread
mapping. A non-null directive removes the listed threads (remapping indexes),
sanitizes every surviving thread, strips extension metadata and the
originating URL from the meta block, and reports the directive's committed
range so the caller can reset the url state. -/
def sanitizePII (p : Profile) (d : Option RemoveProfileInformation) :
    SanitizeProfileResult :=
  match d with
  | none =>
      { profile := p
        committedRange := none
        oldThreadIndexToNew := identityThreadMap p.threads.length }
  | some d =>
      let surviving :=
        p.threads.enum.filter (fun it => decide (it.1 ∉ d.shouldRemoveThreads))
      { profile :=
          { meta :=
              { p.meta with
                extensions :=
                  if d.shouldRemoveExtensions then none else p.meta.extensions
                originUrl :=
                  if d.shouldRemoveUrls then none else p.meta.originUrl }
            threads := surviving.map (fun it => sanitizeThread d it.1 it.2) }
        committedRange := d.shouldFilterToCommittedRange
        oldThreadIndexToNew :=
          (List.range p.threads.length).map (fun i => (i, newThreadIndex d i)) }

/-- The checked sharing options of the publish panel (CheckedSharingOptions in
types/actions), in declaration order. -/
structure CheckedSharingOptions where
  includeHiddenThreads : Bool
  includeFullTimeRange : Bool
  includeScreenshots : Bool
  includeUrls : Bool
  includeExtension : Bool
  includePreferenceValues : Bool
  deriving DecidableEq

/-- The list Object.values(checkedSharingOptions) iterates over, in field
declaration order. -/
def sharingOptionsValues (o : CheckedSharingOptions) : List Bool :=
  [o.includeHiddenThreads, o.includeFullTimeRange, o.includeScreenshots,
    o.includeUrls, o.includeExtension, o.includePreferenceValues]

/-- A global track: either a process track with a pid and an optional main
thread index, or another track kind. -/
inductive GlobalTrack
  | process (pid : Nat) (mainThreadIndex : Option Nat)
  | otherGlobal
  deriving DecidableEq

/-- A local track: either a thread track with its thread index, or another
track kind. -/
inductive LocalTrack
  | thread (threadIndex : Nat)
  | otherLocal
  deriving DecidableEq

/-- Lookup in a pid-keyed association list (the Map.get of the source). -/
def lookupPid {α : Type} (m : List (Nat × α)) (pid : Nat) : Option α :=
  (m.find? (fun kv => kv.1 = pid)).map Prod.snd

/-- One step of the first loop of getRemoveProfileInformation: a hidden
global track index adds its process main thread and all its local thread
tracks to the removal set. A missing global track or pid entry is the
exception path of the source (property access on undefined, or ensureExists). -/
def addHiddenGlobalTrack (globalTracks : List GlobalTrack)
    (localTracksByPid : List (Nat × List LocalTrack)) (s : Finset Nat)
    (globalTrackIndex : Nat) : Except Unit (Finset Nat) :=
  match globalTracks[globalTrackIndex]? with
  | none => .error ()
  | some (GlobalTrack.process pid (some mainThreadIndex)) =>
      match lookupPid localTracksByPid pid with
      | none => .error ()
      | some localTracks =>
          .ok (localTracks.foldl
            (fun s lt =>
              match lt with
              | LocalTrack.thread ti => insert ti s
              | LocalTrack.otherLocal => s)
            (insert mainThreadIndex s))
  | some _ => .ok s

/-- One step of the second loop of getRemoveProfileInformation: a pid with
hidden local track indexes adds every hidden thread-kind local track to the
removal set. A missing pid entry or out-of-range local track index is the
exception path of the source. -/
def addHiddenLocalTracks (localTracksByPid : List (Nat × List LocalTrack))
    (s : Finset Nat) (entry : Nat × List Nat) : Except Unit (Finset Nat) :=
  match lookupPid localTracksByPid entry.1 with
  | none => .error ()
  | some localTracks =>
      entry.2.foldlM
        (fun s idx =>
          match localTracks[idx]? with
          | none => .error ()
          | some (LocalTrack.thread ti) => .ok (insert ti s)
          | some LocalTrack.otherLocal => .ok s)
        s

/-- The hidden-thread collection of getRemoveProfileInformation: when hidden
threads are not included, walk the hidden global tracks and the hidden local
tracks, accumulating the thread indexes to remove; otherwise the set is
empty. -/
def buildShouldRemoveThreads (checkedSharingOptions : CheckedSharingOptions)
    (hiddenGlobalTracks : List Nat)
    (hiddenLocalTracksByPid : List (Nat × List Nat))
    (globalTracks : List GlobalTrack)
    (localTracksByPid : List (Nat × List LocalTrack)) :
    Except Unit (Finset Nat) :=
  if !checkedSharingOptions.includeHiddenThreads then
    match hiddenGlobalTracks.foldlM
        (addHiddenGlobalTrack globalTracks localTracksByPid)
        (∅ : Finset Nat) with
    | .error e => .error e
    | .ok s =>
        hiddenLocalTracksByPid.foldlM (addHiddenLocalTracks localTracksByPid) s
  else .ok (∅ : Finset Nat)

/-- The getRemoveProfileInformation selector body of selectors/publish.js:
returns null when every checked sharing option is true, and otherwise builds
the removal directive, collecting hidden threads from the hidden global and
local tracks. The Except layer models the exceptions the source can throw
while walking the track structures. -/
def getRemoveProfileInformation (checkedSharingOptions : CheckedSharingOptions)
    (profile : Profile) (committedRange : TimeRange)
    (hiddenGlobalTracks : List Nat)
    (hiddenLocalTracksByPid : List (Nat × List Nat))
    (globalTracks : List GlobalTrack)
    (localTracksByPid : List (Nat × List LocalTrack)) :
    Except Unit (Option RemoveProfileInformation) :=
  let isIncludingEverything :=
    (sharingOptionsValues checkedSharingOptions).foldl (fun a b => a && b) true
  if isIncludingEverything then .ok none
  else
    match buildShouldRemoveThreads checkedSharingOptions hiddenGlobalTracks
        hiddenLocalTracksByPid globalTracks localTracksByPid with
    | .error e => .error e
    | .ok shouldRemoveThreads =>
        .ok (some
          { shouldFilterToCommittedRange :=
              if checkedSharingOptions.includeFullTimeRange then none
              else some committedRange
            shouldRemoveUrls := !checkedSharingOptions.includeUrls
            shouldRemoveThreadsWithScreenshots :=
              if checkedSharingOptions.includeScreenshots then ∅
              else Finset.range profile.threads.length
            shouldRemoveThreads := shouldRemoveThreads
            shouldRemoveExtensions := !checkedSharingOptions.includeExtension
            shouldRemovePreferenceValues :=
              !checkedSharingOptions.includePreferenceValues })

/-- The getSanitizedProfile selector of selectors/publish.js: sanitizePII
applied to the profile and the directive of getRemoveProfileInformation. -/
def getSanitizedProfile (checkedSharingOptions : CheckedSharingOptions)
    (profile : Profile) (committedRange : TimeRange)
    (hiddenGlobalTracks : List Nat)
    (hiddenLocalTracksByPid : List (Nat × List Nat))
    (globalTracks : List GlobalTrack)
    (localTracksByPid : List (Nat × List LocalTrack)) :
    Except Unit SanitizeProfileResult :=
  match getRemoveProfileInformation checkedSharingOptions profile
      committedRange hiddenGlobalTracks hiddenLocalTracksByPid globalTracks
      localTracksByPid with
  | .error e => .error e
  | .ok d => .ok (sanitizePII profile d)

/-- The call-node table: parallel arrays of parent call-node index (-1 is the
root sentinel, mirroring the source), function index, and depth. -/
structure CallNodeTable where
  prefixes : List Int
  funcs : List Nat
  depth : List Nat
  deriving DecidableEq

/-- Modelled from the spec: the walk of getCallNodePathFromIndex
(profile-logic/profile-data, not under src/) from a call node towards the
root, collecting the func index at each step. The fuel argument makes the
walk total; inside a table whose prefix pointers strictly decrease it is
never exhausted. -/
def collectPathFuncs (t : CallNodeTable) : Nat → Int → List Nat
  | 0, _ => []
  | fuel + 1, i =>
      if 0 ≤ i then
        match t.funcs[i.toNat]?, t.prefixes[i.toNat]? with
        | some f, some p => f :: collectPathFuncs t fuel p
        | _, _ => []
      else []

/-- Modelled from the spec: getCallNodePathFromIndex of
profile-logic/profile-data is not under src/ (only its callers in the
FlameGraph component are). A null call-node index returns the empty path by
design; otherwise the func indexes collected from the node to the root are
reversed into root-first order. -/
def getCallNodePathFromIndex (callNodeIndex : Option Nat)
    (t : CallNodeTable) : List Nat :=
  match callNodeIndex with
  | none => []
  | some i => (collectPathFuncs t (t.funcs.length + 1) (i : Int)).reverse

/-- Whether table row i has the given parent call node and func. -/
def matchesParentFunc (t : CallNodeTable) (parent : Int) (f : Nat)
    (i : Nat) : Bool :=
  decide (t.prefixes[i]? = some parent) && decide (t.funcs[i]? = some f)

/-- The first call node whose parent and func match, if any. -/
def findChildWithFunc (t : CallNodeTable) (parent : Int) (f : Nat) :
    Option Nat :=
  (List.range t.prefixes.length).find? (matchesParentFunc t parent f)

/-- Modelled from the spec: the re-walk of getCallNodeIndexFromPath
(profile-logic/profile-data, not under src/) from a current node through the
remaining path, re-deriving one index per step and degrading to none as soon
as a step has no match. -/
def resolveNode (t : CallNodeTable) : Int → List Nat → Option Nat
  | cur, [] => if cur < 0 then none else some cur.toNat
  | cur, f :: rest =>
      match findChildWithFunc t cur f with
      | none => none
      | some i => resolveNode t (i : Int) rest

/-- Modelled from the spec: getCallNodeIndexFromPath resolves a root-first
path against the current call-node table, starting from the root sentinel;
an empty path or a path that no longer exists yields none, never an error. -/
def getIndexFromCallNodePath (path : List Nat) (t : CallNodeTable) :
    Option Nat :=
  resolveNode t (-1) path

/-- Well-formedness of a call-node table: the three columns have equal length
and every prefix pointer is at least the -1 sentinel and strictly smaller
than its own index (the acyclicity invariant of the spec). -/
def WfCallNodeTable (t : CallNodeTable) : Prop :=
  t.funcs.length = t.prefixes.length ∧
    t.depth.length = t.prefixes.length ∧
    ∀ i : Nat, i < t.prefixes.length →
      -1 ≤ t.prefixes.getD i 0 ∧ t.prefixes.getD i 0 < (i : Int)

/-- The call-node collapsing invariant: two call nodes with the same parent
and the same func are the same node. -/
def UniqueParentFunc (t : CallNodeTable) : Prop :=
  ∀ i : Nat, i < t.prefixes.length → ∀ j : Nat, j < t.prefixes.length →
    t.prefixes.getD i 0 = t.prefixes.getD j 0 →
    t.funcs.getD i 0 = t.funcs.getD j 0 → i = j

instance (t : CallNodeTable) : Decidable (WfCallNodeTable t) := by
  unfold WfCallNodeTable
  infer_instance

instance (t : CallNodeTable) : Decidable (UniqueParentFunc t) := by
  unfold UniqueParentFunc
  infer_instance

/-- One row of the flame graph timing: parallel arrays of call node index,
start and end, in normalized [0,1] time-space. -/
structure FlameGraphRow where
  callNode : List Nat
  starts : List ℚ
  ends : List ℚ
  deriving DecidableEq

/-- The flame graph timing: one row per depth. -/
abbrev FlameGraphTiming := List FlameGraphRow

/-- The SELECTABLE_THRESHOLD constant of the FlameGraph component: how wide a
call node box must be to be selectable with keyboard navigation. -/
def SELECTABLE_THRESHOLD : ℚ := 1/1000

/-- Array lookup at a possibly negative JS index: a negative index reads
undefined. -/
def rowLookup {α : Type} (l : List α) (i : Int) : Option α :=
  if 0 ≤ i then l[i.toNat]? else none

/-- JS Array.prototype.indexOf: the first index holding the value, or -1. -/
def jsIndexOf (l : List Nat) (a : Nat) : Int :=
  if a ∈ l then (l.indexOf a : Int) else -1

/-- The width test row.end[col] - row.start[col] > SELECTABLE_THRESHOLD of
the FlameGraph component; an undefined operand makes the comparison NaN > t,
which is false. -/
def boxWide (row : FlameGraphRow) (col : Int) : Bool :=
  match rowLookup row.ends col, rowLookup row.starts col with
  | some e, some s => decide (e - s > SELECTABLE_THRESHOLD)
  | _, _ => false

/-- The _wideEnough method of the FlameGraph component: look up the node's
depth row and compare its box width against SELECTABLE_THRESHOLD. The outer
Option is the exception path of the source (an out-of-range call node index
or depth). -/
def wideEnough (flameGraphTiming : FlameGraphTiming) (t : CallNodeTable)
    (callNodeIndex : Nat) : Option Bool := do
  let depth ← t.depth[callNodeIndex]?
  let row ← flameGraphTiming[depth]?
  pure (boxWide row (jsIndexOf row.callNode callNodeIndex))

/-- The do-while loop of _nextSelectableInRow: step the column by the
direction, stop with the call node at the first wide-enough box, and stop
with undefined when the column leaves the row. -/
def nextSelectableLoop (row : FlameGraphRow) (direction : Int) :
    Nat → Int → Option Nat
  | 0, _ => none
  | fuel + 1, columnIndex =>
      let col := columnIndex + direction
      match rowLookup row.callNode col with
      | none => none
      | some callNodeIndex =>
          if boxWide row col then some callNodeIndex
          else nextSelectableLoop row direction fuel col

/-- The _nextSelectableInRow method of the FlameGraph component: from the
starting node's column in its depth row, scan in the given direction (1 or
-1) for the next call node whose box is wide enough; undefined when the row
ends first. The outer Option is the exception path of the source (an
out-of-range starting index or depth); the fuel bound of one more than the
row length is enough for every scan that starts inside the row. -/
def nextSelectableInRow (flameGraphTiming : FlameGraphTiming)
    (t : CallNodeTable) (startingCallNodeIndex : Nat) (direction : Int) :
    Option (Option Nat) := do
  let depth ← t.depth[startingCallNodeIndex]?
  let row ← flameGraphTiming[depth]?
  pure (nextSelectableLoop row direction (row.callNode.length + 1)
    (jsIndexOf row.callNode startingCallNodeIndex))

/-- Strict ordering of columns in the scan direction: with direction 1 the
second column is to the right of the first, with any other (i.e. -1) to the
left. -/
def colBeyond (direction a b : Int) : Prop :=
  if direction = 1 then a < b else b < a

/-- Well-formedness of a flame graph row: parallel arrays of equal length and
no duplicate call nodes. -/
def WfRow (row : FlameGraphRow) : Prop :=
  row.starts.length = row.callNode.length ∧
    row.ends.length = row.callNode.length ∧ row.callNode.Nodup

/-- Sharing options with every box checked except the screenshots one. -/
def allOptionsButScreenshots : CheckedSharingOptions :=
  ⟨true, true, false, true, true, true⟩

/-- A small concrete two-thread profile used as a witness input. -/
def demoProfile : Profile :=
  ⟨⟨0, 0, 1, none, none⟩, [⟨[1], []⟩, ⟨[2], []⟩]⟩

/-- A small concrete call-node table: root 0 with children 1 and 2, and node 3
a child of 2; parallel func and depth columns. -/
def pathTable : CallNodeTable :=
  ⟨[-1, 0, 0, 2], [4, 5, 6, 5], [0, 1, 1, 2]⟩

/-- A concrete flame-graph row with three boxes; the middle box is exactly
SELECTABLE_THRESHOLD wide, the two outer boxes are wide. -/
def demoRow : FlameGraphRow :=
  ⟨[0, 1, 2], [0, 1/2, 501/1000], [1/2, 501/1000, 1]⟩

/-- A one-row flame-graph timing holding demoRow at depth 0. -/
def demoTiming : FlameGraphTiming := [demoRow]

/-- A call-node table whose three nodes are all roots at depth 0, matching
demoRow. -/
def demoTable : CallNodeTable := ⟨[-1, -1, -1], [0, 1, 2], [0, 0, 0]⟩

/-! Theorems. -/

theorem boxesFromBoundaries_cons_length (m : NetworkMarker) (k : ℚ) :
    ∀ (rest : List (ℚ × ℚ)) (t o : ℚ),
      (boxesFromBoundaries m k ((t, o) :: rest)).length = rest.length + 1 := by
  intro rest
  induction rest with
  | nil => intro t o; rfl
  | cons hd tl ih =>
      intro t o
      cases hd with
      | mk t2 o2 => simp [boxesFromBoundaries, ih]

theorem boxesFromBoundaries_width_sum (m : NetworkMarker) (k : ℚ) :
    ∀ (rest : List (ℚ × ℚ)) (t o : ℚ),
      ((boxesFromBoundaries m k ((t, o) :: rest)).map PhaseBox.width).sum
        = (m.endTime - t) * k := by
  intro rest
  induction rest with
  | nil => intro t o; simp [boxesFromBoundaries]
  | cons hd tl ih =>
      intro t o
      cases hd with
      | mk t2 o2 =>
          simp [boxesFromBoundaries, ih]
          ring

theorem phaseBoundaries_length (m : NetworkMarker) :
    (phaseBoundaries m).length = 1 + presentBoundaryCount m := by
  rcases m with ⟨st, en, ⟨dls, dle, cs, tce, scs, ce, rs, resS, resE⟩⟩
  cases dls <;> cases rs <;> cases resS <;> cases resE <;>
    simp [phaseBoundaries, presentBoundaryCount]

theorem computePhases_length (m : NetworkMarker) (r : TimeRange) (pw : ℚ) :
    (computePhases m r pw).length = numPhases m := by
  have hb := phaseBoundaries_length m
  unfold computePhases numPhases
  cases h : hasPhaseTimestamps m
  · simp
  · simp only [if_pos rfl, if_true]
    obtain ⟨o, tl, heq⟩ : ∃ o tl, phaseBoundaries m = (m.startTime, o) :: tl :=
      ⟨_, _, rfl⟩
    rw [heq] at hb ⊢
    rw [boxesFromBoundaries_cons_length]
    simp at hb
    omega

theorem computePhases_width_sum (m : NetworkMarker) (r : TimeRange) (pw : ℚ) :
    ((computePhases m r pw).map PhaseBox.width).sum
      = (m.endTime - m.startTime) * pxPerMs r pw := by
  unfold computePhases
  cases h : hasPhaseTimestamps m
  · simp
  · simp only [if_pos rfl, if_true]
    obtain ⟨o, tl, heq⟩ : ∃ o tl, phaseBoundaries m = (m.startTime, o) :: tl :=
      ⟨_, _, rfl⟩
    rw [heq, boxesFromBoundaries_width_sum]



/-- C2 counterexample: the claim states that the margin offset in the bar's
left position is the spec's 30px. The in-repo boundary-crossing test pins the
bar of the full-information marker, under the committed range 20..60 at
pixel width 200, to left 100px; a 30px margin would place it at -20px, and
only the modelled 150px margin reproduces 100px. -/
theorem networkPhase_margin_is_not_30 :
    (computeBarStyle fullInfoMarker crossingRange 200 30).2 = -20 ∧
    (computeBarStyle fullInfoMarker crossingRange 200 TIMELINE_MARGIN_LEFT).2
      = 100 ∧
    TIMELINE_MARGIN_LEFT ≠ 30 := by
  refine ⟨?_, ?_, ?_⟩ <;>
    norm_num [computeBarStyle, fullInfoMarker, crossingRange, pxPerMs,
      TIMELINE_MARGIN_LEFT]

/-- C2 (amended): the full-information marker (start 10, end 109, full
timestamp set) over the visible range 10..110 at pixel width 200 produces
exactly the five phase boxes of the fixture, and the bar is 198px wide at
left TIMELINE_MARGIN_LEFT, whose value is 150px (not the spec's 30px). -/
theorem networkPhase_full_info_fixture :
    computePhases fullInfoMarker fullProfileRange 200 =
      [⟨0, 20, 0⟩, ⟨20, 20, 1/3⟩, ⟨40, 60, 2/3⟩, ⟨100, 40, 1⟩, ⟨140, 58, 0⟩] ∧
    computeBarStyle fullInfoMarker fullProfileRange 200 TIMELINE_MARGIN_LEFT
      = (198, TIMELINE_MARGIN_LEFT) ∧
    TIMELINE_MARGIN_LEFT = 150 := by
  refine ⟨?_, ?_, rfl⟩
  · simp [computePhases, hasPhaseTimestamps, fullInfoMarker, boxesFromBoundaries,
      phaseBoundaries, pxPerMs, fullProfileRange]
    norm_num
  · simp [computeBarStyle, fullInfoMarker, fullProfileRange, pxPerMs,
      TIMELINE_MARGIN_LEFT]
    norm_num

/-- C3: a missing boundary timestamp merges its phase into the neighbor
instead of emitting a zero box: the widths of the emitted boxes always sum to
the full marker width, the number of boxes is one plus the number of present
boundary timestamps (never a fixed five), the subset-information fixture
collapses to the four boxes of the test, and the no-detail fixture is a
single full-width box at opacity 1. -/
theorem networkPhase_missing_timestamps_merge :
    (∀ (m : NetworkMarker) (r : TimeRange) (pw : ℚ),
      ((computePhases m r pw).map PhaseBox.width).sum
        = (m.endTime - m.startTime) * pxPerMs r pw) ∧
    (∀ (m : NetworkMarker) (r : TimeRange) (pw : ℚ),
      (computePhases m r pw).length = numPhases m) ∧
    computePhases subsetInfoMarker fullProfileRange 200 =
      [⟨0, 20, 0⟩, ⟨20, 80, 2/3⟩, ⟨100, 40, 1⟩, ⟨140, 58, 0⟩] ∧
    computePhases noDetailMarker fullProfileRange 200 = [⟨0, 198, 1⟩] := by
  refine ⟨computePhases_width_sum, computePhases_length, ?_, ?_⟩
  · simp [computePhases, hasPhaseTimestamps, subsetInfoMarker,
      emptyNetworkPayload, boxesFromBoundaries, phaseBoundaries, pxPerMs,
      fullProfileRange]
    norm_num
  · simp [computePhases, hasPhaseTimestamps, noDetailMarker,
      emptyNetworkPayload, pxPerMs, fullProfileRange]
    norm_num

/-- C4: the number of phase boxes of a marker does not depend on the visible
range or the pixel width at all, so committing a sub-range never drops a box;
on the boundary-crossing fixture (committed range 20..60) every one of the
five boxes is still emitted even though the last box ends at 495px, beyond
the 200px pixel width, and the bar starts 50px left of the margin. -/
theorem networkPhase_boxes_never_dropped :
    (∀ (m : NetworkMarker) (r1 r2 : TimeRange) (pw1 pw2 : ℚ),
      (computePhases m r1 pw1).length = (computePhases m r2 pw2).length) ∧
    computePhases fullInfoMarker crossingRange 200 =
      [⟨0, 50, 0⟩, ⟨50, 50, 1/3⟩, ⟨100, 150, 2/3⟩, ⟨250, 100, 1⟩,
        ⟨350, 145, 0⟩] ∧
    (∃ b ∈ computePhases fullInfoMarker crossingRange 200,
      b.left + b.width > 200) ∧
    (computeBarStyle fullInfoMarker crossingRange 200 TIMELINE_MARGIN_LEFT).2
      < TIMELINE_MARGIN_LEFT := by
  have hcross : computePhases fullInfoMarker crossingRange 200 =
      [⟨0, 50, 0⟩, ⟨50, 50, 1/3⟩, ⟨100, 150, 2/3⟩, ⟨250, 100, 1⟩,
        ⟨350, 145, 0⟩] := by
    simp [computePhases, hasPhaseTimestamps, fullInfoMarker, boxesFromBoundaries,
      phaseBoundaries, pxPerMs, crossingRange]
    norm_num
  refine ⟨?_, hcross, ?_, ?_⟩
  · intro m r1 r2 pw1 pw2
    rw [computePhases_length, computePhases_length]
  · refine ⟨⟨350, 145, 0⟩, ?_, by norm_num⟩
    rw [hcross]
    simp
  · simp [computeBarStyle, fullInfoMarker, crossingRange, pxPerMs,
      TIMELINE_MARGIN_LEFT]
    norm_num



theorem foldl_and_eq (l : List Bool) :
    ∀ a : Bool, l.foldl (fun x y => x && y) a = (a && l.all id) := by
  induction l with
  | nil => intro a; simp
  | cons hd tl ih =>
      intro a
      simp [List.foldl_cons, ih, Bool.and_assoc]

theorem foldl_and_true_iff (l : List Bool) :
    l.foldl (fun x y => x && y) true = true ↔ ∀ b ∈ l, b = true := by
  rw [foldl_and_eq]
  simp [List.all_eq_true]

/-- C1: with a null directive, sanitizePII returns the input profile itself
with a null committed range and the identity thread mapping; the
getRemoveProfileInformation selector returns the null directive exactly when
every checked sharing option is true; and in that case the whole
getSanitizedProfile pipeline is the identity transform on the profile. -/
theorem sanitize_null_directive_is_identity (opts : CheckedSharingOptions)
    (p : Profile) (cr : TimeRange) (hgt : List Nat)
    (hltbp : List (Nat × List Nat)) (gts : List GlobalTrack)
    (ltbp : List (Nat × List LocalTrack)) :
    (getRemoveProfileInformation opts p cr hgt hltbp gts ltbp = .ok none ↔
      ∀ b ∈ sharingOptionsValues opts, b = true) ∧
    sanitizePII p none =
      ⟨p, none, identityThreadMap p.threads.length⟩ ∧
    ((∀ b ∈ sharingOptionsValues opts, b = true) →
      getSanitizedProfile opts p cr hgt hltbp gts ltbp =
        .ok ⟨p, none, identityThreadMap p.threads.length⟩) := by
  by_cases hall :
      (sharingOptionsValues opts).foldl (fun x y => x && y) true = true
  · have hok : getRemoveProfileInformation opts p cr hgt hltbp gts ltbp
        = .ok none := by
      unfold getRemoveProfileInformation
      rw [if_pos hall]
    refine ⟨⟨fun _ => (foldl_and_true_iff _).mp hall, fun _ => hok⟩, rfl,
      fun _ => ?_⟩
    unfold getSanitizedProfile
    rw [hok]
    rfl
  · have hne : getRemoveProfileInformation opts p cr hgt hltbp gts ltbp
        ≠ .ok none := by
      unfold getRemoveProfileInformation
      rw [if_neg hall]
      cases hB : buildShouldRemoveThreads opts hgt hltbp gts ltbp <;> simp
    have hnall : ¬ ∀ b ∈ sharingOptionsValues opts, b = true := fun h =>
      hall ((foldl_and_true_iff _).mpr h)
    exact ⟨⟨fun h => absurd h hne, fun h => absurd h hnall⟩, rfl,
      fun h => absurd h hnall⟩

/-- C6: sanitization is idempotent under a second no-op pass: sanitizing the
profile produced by any sanitization once more with the null directive
returns that profile unchanged. -/
theorem sanitize_idempotent_noop_pass (p : Profile)
    (d : Option RemoveProfileInformation) :
    (sanitizePII (sanitizePII p d).profile none).profile
      = (sanitizePII p d).profile := rfl

/-- C9: whenever getRemoveProfileInformation returns a non-null directive,
its shouldRemoveThreadsWithScreenshots field is the set of all thread indexes
of the profile when includeScreenshots is unchecked, and the empty set when
it is checked; never a proper subset. -/
theorem screenshot_removal_all_or_none (opts : CheckedSharingOptions)
    (p : Profile) (cr : TimeRange) (hgt : List Nat)
    (hltbp : List (Nat × List Nat)) (gts : List GlobalTrack)
    (ltbp : List (Nat × List LocalTrack)) (d : RemoveProfileInformation)
    (h : getRemoveProfileInformation opts p cr hgt hltbp gts ltbp
      = .ok (some d)) :
    d.shouldRemoveThreadsWithScreenshots =
      if opts.includeScreenshots then ∅ else Finset.range p.threads.length := by
  unfold getRemoveProfileInformation at h
  by_cases hall :
      (sharingOptionsValues opts).foldl (fun x y => x && y) true = true
  · rw [if_pos hall] at h
    cases h
  · rw [if_neg hall] at h
    cases hB : buildShouldRemoveThreads opts hgt hltbp gts ltbp with
    | error e => rw [hB] at h; cases h
    | ok s =>
        rw [hB] at h
        injection h with h2
        injection h2 with h3
        rw [show d = _ from h3.symm]

/-- Witness for C9 at a concrete input: all options checked except
screenshots, on the two-thread demo profile. -/
theorem screenshot_removal_all_or_none_witness :
    (⟨none, false, Finset.range 2, ∅, false, false⟩ :
        RemoveProfileInformation).shouldRemoveThreadsWithScreenshots =
      if allOptionsButScreenshots.includeScreenshots then ∅
      else Finset.range demoProfile.threads.length :=
  screenshot_removal_all_or_none allOptionsButScreenshots demoProfile ⟨0, 1⟩
    [] [] [] [] ⟨none, false, Finset.range 2, ∅, false, false⟩ (by decide)



theorem collectPathFuncs_neg (t : CallNodeTable) (i : Int) (hneg : i < 0) :
    ∀ fuel : Nat, collectPathFuncs t fuel i = [] := by
  intro fuel
  cases fuel with
  | zero => rfl
  | succ g =>
      unfold collectPathFuncs
      rw [if_neg (by omega)]

theorem collectPathFuncs_succ (t : CallNodeTable) (fuel : Nat) (i : Nat)
    (f : Nat) (p : Int) (hf : t.funcs[i]? = some f)
    (hp : t.prefixes[i]? = some p) :
    collectPathFuncs t (fuel + 1) (i : Int) = f :: collectPathFuncs t fuel p := by
  simp only [collectPathFuncs]
  rw [if_pos (by omega : (0 : Int) ≤ (i : Int))]
  rw [Int.toNat_natCast, hf, hp]

theorem collectPathFuncs_oob (t : CallNodeTable) (fuel : Nat) (i : Nat)
    (hf : t.funcs[i]? = none) :
    collectPathFuncs t (fuel + 1) (i : Int) = [] := by
  simp only [collectPathFuncs]
  rw [if_pos (by omega : (0 : Int) ≤ (i : Int))]
  rw [Int.toNat_natCast, hf]

theorem wf_prefix_lookup (t : CallNodeTable) (hwf : WfCallNodeTable t)
    (i : Nat) (p : Int) (hp : t.prefixes[i]? = some p) :
    -1 ≤ p ∧ p < (i : Int) := by
  have hlen : i < t.prefixes.length := by
    by_contra h
    rw [List.getElem?_eq_none (by omega)] at hp
    cases hp
  have hb := hwf.2.2 i hlen
  rw [List.getD_eq_getElem?_getD, hp] at hb
  simpa using hb

theorem collectPathFuncs_fuel_congr (t : CallNodeTable)
    (hwf : WfCallNodeTable t) :
    ∀ (i f1 f2 : Nat), i < f1 → i < f2 →
      collectPathFuncs t f1 (i : Int) = collectPathFuncs t f2 (i : Int) := by
  intro i
  induction i using Nat.strong_induction_on with
  | _ i ih =>
    intro f1 f2 h1 h2
    obtain ⟨g1, rfl⟩ : ∃ g, f1 = g + 1 := ⟨f1 - 1, by omega⟩
    obtain ⟨g2, rfl⟩ : ∃ g, f2 = g + 1 := ⟨f2 - 1, by omega⟩
    by_cases hlen : i < t.funcs.length
    · have hf : t.funcs[i]? = some t.funcs[i] := List.getElem?_eq_getElem hlen
      have hplen : i < t.prefixes.length := by
        have := hwf.1
        omega
      have hp : t.prefixes[i]? = some t.prefixes[i] :=
        List.getElem?_eq_getElem hplen
      rw [collectPathFuncs_succ t g1 i _ _ hf hp,
        collectPathFuncs_succ t g2 i _ _ hf hp]
      congr 1
      have hb := wf_prefix_lookup t hwf i _ hp
      by_cases hneg : t.prefixes[i] < 0
      · rw [collectPathFuncs_neg t _ hneg, collectPathFuncs_neg t _ hneg]
      · have hcast : t.prefixes[i] = ((t.prefixes[i].toNat : Nat) : Int) := by
          omega
        rw [hcast]
        exact ih t.prefixes[i].toNat (by omega) g1 g2 (by omega) (by omega)
    · have hf : t.funcs[i]? = none := List.getElem?_eq_none (by omega)
      rw [collectPathFuncs_oob t g1 i hf, collectPathFuncs_oob t g2 i hf]

theorem getCallNodePathFromIndex_step (t : CallNodeTable)
    (hwf : WfCallNodeTable t) (n : Nat) (hn : n < t.funcs.length)
    (f : Nat) (p : Int) (hf : t.funcs[n]? = some f)
    (hp : t.prefixes[n]? = some p) :
    getCallNodePathFromIndex (some n) t =
      (if p < 0 then [] else getCallNodePathFromIndex (some p.toNat) t)
        ++ [f] := by
  show (collectPathFuncs t (t.funcs.length + 1) (n : Int)).reverse = _
  rw [collectPathFuncs_succ t t.funcs.length n f p hf hp]
  rw [List.reverse_cons]
  congr 1
  have hb := wf_prefix_lookup t hwf n p hp
  by_cases hneg : p < 0
  · rw [if_pos hneg, collectPathFuncs_neg t p hneg]
    rfl
  · rw [if_neg hneg]
    show _ = (collectPathFuncs t (t.funcs.length + 1)
      ((p.toNat : Nat) : Int)).reverse
    congr 1
    have hcast : p = ((p.toNat : Nat) : Int) := by omega
    rw [hcast]
    exact collectPathFuncs_fuel_congr t hwf p.toNat t.funcs.length
      (t.funcs.length + 1) (by omega) (by omega)

theorem findChildWithFunc_self (t : CallNodeTable)
    (huniq : UniqueParentFunc t) (n : Nat) (hn : n < t.prefixes.length)
    (p : Int) (f : Nat) (hp : t.prefixes[n]? = some p)
    (hf : t.funcs[n]? = some f) :
    findChildWithFunc t p f = some n := by
  unfold findChildWithFunc
  cases hfind : (List.range t.prefixes.length).find? (matchesParentFunc t p f) with
  | none =>
      rw [List.find?_eq_none] at hfind
      have hpred := hfind n (List.mem_range.mpr hn)
      unfold matchesParentFunc at hpred
      simp [hp, hf] at hpred
  | some j =>
      have hj : j < t.prefixes.length :=
        List.mem_range.mp (List.mem_of_find?_eq_some hfind)
      have hjpred := List.find?_some hfind
      unfold matchesParentFunc at hjpred
      simp only [Bool.and_eq_true, decide_eq_true_eq] at hjpred
      have heq := huniq j hj n hn ?_ ?_
      · rw [heq]
      · rw [List.getD_eq_getElem?_getD, List.getD_eq_getElem?_getD,
          hjpred.1, hp]
      · rw [List.getD_eq_getElem?_getD, List.getD_eq_getElem?_getD,
          hjpred.2, hf]

theorem resolveNode_path_append (t : CallNodeTable)
    (hwf : WfCallNodeTable t) (huniq : UniqueParentFunc t) :
    ∀ (m : Nat), m < t.funcs.length → ∀ (rest : List Nat),
      resolveNode t (-1) (getCallNodePathFromIndex (some m) t ++ rest)
        = resolveNode t (m : Int) rest := by
  intro m
  induction m using Nat.strong_induction_on with
  | _ m ih =>
    intro hm rest
    have hmp : m < t.prefixes.length := by
      have := hwf.1
      omega
    have hf : t.funcs[m]? = some t.funcs[m] := List.getElem?_eq_getElem hm
    have hp : t.prefixes[m]? = some t.prefixes[m] := List.getElem?_eq_getElem hmp
    rw [getCallNodePathFromIndex_step t hwf m hm _ _ hf hp]
    have hb := wf_prefix_lookup t hwf m _ hp
    by_cases hneg : t.prefixes[m] < 0
    · rw [if_pos hneg]
      simp only [List.nil_append, List.cons_append]
      have hproot : t.prefixes[m]? = some (-1) := by
        rw [hp]
        congr 1
        omega
      show resolveNode t (-1) (t.funcs[m] :: rest) = _
      simp only [resolveNode]
      rw [findChildWithFunc_self t huniq m hmp (-1) t.funcs[m] hproot hf]
    · rw [if_neg hneg]
      rw [List.append_assoc]
      rw [ih t.prefixes[m].toNat (by omega) (by omega) ([t.funcs[m]] ++ rest)]
      show resolveNode t _ (t.funcs[m] :: rest) = _
      simp only [resolveNode]
      have hcast : ((t.prefixes[m].toNat : Nat) : Int) = t.prefixes[m] := by
        omega
      rw [hcast]
      rw [findChildWithFunc_self t huniq m hmp t.prefixes[m] t.funcs[m] hp hf]

/-- C7: for every call node n of a well-formed call-node table satisfying the
call-node collapsing invariant, resolving the path of n against the same
table yields n again; and a path whose first step has no match in the table
resolves to none (no match) rather than failing. -/
theorem call_node_path_round_trip (t : CallNodeTable)
    (hwf : WfCallNodeTable t) (huniq : UniqueParentFunc t) (n : Nat)
    (hn : n < t.funcs.length) :
    getIndexFromCallNodePath (getCallNodePathFromIndex (some n) t) t
        = some n ∧
    ∀ (f : Nat) (rest : List Nat), findChildWithFunc t (-1) f = none →
      getIndexFromCallNodePath (f :: rest) t = none := by
  constructor
  · unfold getIndexFromCallNodePath
    have happ := resolveNode_path_append t hwf huniq n hn []
    rw [List.append_nil] at happ
    rw [happ]
    unfold resolveNode
    rw [if_neg (by omega)]
    rw [Int.toNat_natCast]
  · intro f rest hnone
    unfold getIndexFromCallNodePath resolveNode
    rw [hnone]

/-- Witness for C7: on the concrete four-node table, node 3's path resolves
back to node 3. -/
theorem call_node_path_round_trip_witness :
    getIndexFromCallNodePath (getCallNodePathFromIndex (some 3) pathTable)
      pathTable = some 3 :=
  (call_node_path_round_trip pathTable (by decide) (by decide) 3
    (by decide)).1

/-- C8: getCallNodePathFromIndex returns the empty path for a null call-node
index, by design, rather than raising an error; and for a non-null in-range
index the result is the parent's root-first path extended with the node's own
func, i.e. the func indexes collected by walking prefix pointers to the root,
reversed into root-first order. -/
theorem call_node_path_null_and_walk (t : CallNodeTable) :
    getCallNodePathFromIndex none t = [] ∧
    (WfCallNodeTable t → ∀ (n f : Nat) (p : Int), n < t.funcs.length →
      t.funcs[n]? = some f → t.prefixes[n]? = some p →
      getCallNodePathFromIndex (some n) t =
        (if p < 0 then [] else getCallNodePathFromIndex (some p.toNat) t)
          ++ [f]) :=
  ⟨rfl, fun hwf n f p hn hf hp =>
    getCallNodePathFromIndex_step t hwf n hn f p hf hp⟩

/-- Witness for C8: on the concrete four-node table, node 3's path extends
its parent's path with func 5. -/
theorem call_node_path_null_and_walk_witness :
    getCallNodePathFromIndex (some 3) pathTable =
      (if (2 : Int) < 0 then [] else
        getCallNodePathFromIndex (some (2 : Int).toNat) pathTable) ++ [5] :=
  (call_node_path_null_and_walk pathTable).2 (by decide) 3 5 2 (by decide)
    rfl rfl



theorem rowLookup_natCast {α : Type} (l : List α) (c : Nat) :
    rowLookup l (c : Int) = l[c]? := by
  unfold rowLookup
  rw [if_pos (by omega : (0 : Int) ≤ (c : Int)), Int.toNat_natCast]

/-- C5: the selectability predicate of the flame graph holds exactly when the
box's end minus start strictly exceeds the SELECTABLE_THRESHOLD of 1/1000; a
box exactly 1/1000 wide is not selectable. The box is looked up in the
FlameGraphTiming row at the call node's depth. -/
theorem wide_enough_iff_threshold (timing : FlameGraphTiming)
    (t : CallNodeTable) (i d c : Nat) (row : FlameGraphRow) (s e : ℚ)
    (hd : t.depth[i]? = some d) (hrow : timing[d]? = some row)
    (hc : jsIndexOf row.callNode i = (c : Int))
    (hs : row.starts[c]? = some s) (he : row.ends[c]? = some e) :
    (wideEnough timing t i = some true ↔ e - s > SELECTABLE_THRESHOLD) ∧
    SELECTABLE_THRESHOLD = 1/1000 ∧
    (e - s = SELECTABLE_THRESHOLD → wideEnough timing t i = some false) := by
  have hw : wideEnough timing t i
      = some (boxWide row (jsIndexOf row.callNode i)) := by
    unfold wideEnough
    rw [hd]
    simp only [Option.bind_eq_bind, Option.some_bind]
    rw [hrow]
    simp only [Option.some_bind]
    rfl
  rw [hc] at hw
  have hbw : boxWide row (c : Int) = decide (e - s > SELECTABLE_THRESHOLD) := by
    unfold boxWide
    rw [rowLookup_natCast, rowLookup_natCast, hs, he]
  rw [hbw] at hw
  refine ⟨?_, rfl, ?_⟩
  · rw [hw]
    constructor
    · intro h
      have := Option.some.inj h
      exact of_decide_eq_true this
    · intro h
      rw [decide_eq_true h]
  · intro h
    rw [hw]
    have : ¬ e - s > SELECTABLE_THRESHOLD := by rw [h]; exact lt_irrefl _
    rw [decide_eq_false this]

/-- Witness for C5 at the concrete demo row: the first box spans 0 to 1/2 and
is selectable. -/
theorem wide_enough_iff_threshold_witness :
    (wideEnough demoTiming demoTable 0 = some true ↔
      (1 : ℚ)/2 - 0 > SELECTABLE_THRESHOLD) ∧
    SELECTABLE_THRESHOLD = 1/1000 ∧
    ((1 : ℚ)/2 - 0 = SELECTABLE_THRESHOLD →
      wideEnough demoTiming demoTable 0 = some false) :=
  wide_enough_iff_threshold demoTiming demoTable 0 0 0 demoRow 0 (1/2)
    rfl rfl rfl rfl rfl

theorem nextSelectableLoop_spec_right (row : FlameGraphRow) :
    ∀ (fuel : Nat) (col : Int), -1 ≤ col →
      (row.callNode.length : Int) ≤ col + fuel →
      ((nextSelectableLoop row 1 fuel col = none →
          ∀ c : Int, col < c → 0 ≤ c → c < (row.callNode.length : Int) →
            boxWide row c = false) ∧
        (∀ cn : Nat, nextSelectableLoop row 1 fuel col = some cn →
          ∃ c : Int, col < c ∧ rowLookup row.callNode c = some cn ∧
            boxWide row c = true ∧
            ∀ c2 : Int, col < c2 → c2 < c → boxWide row c2 = false)) := by
  intro fuel
  induction fuel with
  | zero =>
      intro col hcol hlen
      constructor
      · intro _ c hc hc0 hclen
        omega
      · intro cn hcn
        simp [nextSelectableLoop] at hcn
  | succ fuel ih =>
      intro col hcol hlen
      cases hlk : rowLookup row.callNode (col + 1) with
      | none =>
          have hstep : nextSelectableLoop row 1 (fuel + 1) col = none := by
            simp only [nextSelectableLoop]
            rw [hlk]
          have hoob : (row.callNode.length : Int) ≤ col + 1 := by
            unfold rowLookup at hlk
            rw [if_pos (by omega : (0 : Int) ≤ col + 1)] at hlk
            rw [List.getElem?_eq_none_iff] at hlk
            omega
          constructor
          · intro _ c hc hc0 hclen
            omega
          · intro cn hcn
            rw [hstep] at hcn
            cases hcn
      | some cn0 =>
          cases hwide : boxWide row (col + 1) with
          | true =>
              have hstep : nextSelectableLoop row 1 (fuel + 1) col = some cn0 := by
                simp only [nextSelectableLoop]
                rw [hlk]
                simp [hwide]
              constructor
              · intro hnone
                rw [hstep] at hnone
                cases hnone
              · intro cn hcn
                rw [hstep] at hcn
                obtain rfl : cn0 = cn := Option.some.inj hcn
                exact ⟨col + 1, by omega, hlk, hwide, fun c2 h1 h2 => by omega⟩
          | false =>
              have hstep : nextSelectableLoop row 1 (fuel + 1) col
                  = nextSelectableLoop row 1 fuel (col + 1) := by
                simp only [nextSelectableLoop]
                rw [hlk]
                simp [hwide]
              obtain ⟨ihn, ihs⟩ := ih (col + 1) (by omega) (by omega)
              constructor
              · intro hnone c hc hc0 hclen
                rw [hstep] at hnone
                rcases (by omega : c = col + 1 ∨ col + 1 < c) with rfl | hgt
                · exact hwide
                · exact ihn hnone c hgt hc0 hclen
              · intro cn hcn
                rw [hstep] at hcn
                obtain ⟨c, hbc, hlkc, hwc, hbet⟩ := ihs cn hcn
                refine ⟨c, by omega, hlkc, hwc, fun c2 h1 h2 => ?_⟩
                rcases (by omega : c2 = col + 1 ∨ col + 1 < c2) with rfl | hgt
                · exact hwide
                · exact hbet c2 hgt h2

theorem nextSelectableLoop_spec_left (row : FlameGraphRow) :
    ∀ (fuel : Nat) (col : Int), col < (row.callNode.length : Int) →
      col < (fuel : Int) →
      ((nextSelectableLoop row (-1) fuel col = none →
          ∀ c : Int, c < col → 0 ≤ c → c < (row.callNode.length : Int) →
            boxWide row c = false) ∧
        (∀ cn : Nat, nextSelectableLoop row (-1) fuel col = some cn →
          ∃ c : Int, c < col ∧ rowLookup row.callNode c = some cn ∧
            boxWide row c = true ∧
            ∀ c2 : Int, c2 < col → c < c2 → boxWide row c2 = false)) := by
  intro fuel
  induction fuel with
  | zero =>
      intro col hcol hfuel
      constructor
      · intro _ c hc hc0 hclen
        omega
      · intro cn hcn
        simp [nextSelectableLoop] at hcn
  | succ fuel ih =>
      intro col hcol hfuel
      cases hlk : rowLookup row.callNode (col + -1) with
      | none =>
          have hstep : nextSelectableLoop row (-1) (fuel + 1) col = none := by
            simp only [nextSelectableLoop]
            rw [hlk]
          have hneg : col + -1 < 0 := by
            by_contra hpos
            unfold rowLookup at hlk
            rw [if_pos (by omega : (0 : Int) ≤ col + -1)] at hlk
            rw [List.getElem?_eq_none_iff] at hlk
            omega
          constructor
          · intro _ c hc hc0 hclen
            omega
          · intro cn hcn
            rw [hstep] at hcn
            cases hcn
      | some cn0 =>
          cases hwide : boxWide row (col + -1) with
          | true =>
              have hstep : nextSelectableLoop row (-1) (fuel + 1) col
                  = some cn0 := by
                simp only [nextSelectableLoop]
                rw [hlk]
                simp [hwide]
              constructor
              · intro hnone
                rw [hstep] at hnone
                cases hnone
              · intro cn hcn
                rw [hstep] at hcn
                obtain rfl : cn0 = cn := Option.some.inj hcn
                exact ⟨col + -1, by omega, hlk, hwide, fun c2 h1 h2 => by omega⟩
          | false =>
              have hstep : nextSelectableLoop row (-1) (fuel + 1) col
                  = nextSelectableLoop row (-1) fuel (col + -1) := by
                simp only [nextSelectableLoop]
                rw [hlk]
                simp [hwide]
              obtain ⟨ihn, ihs⟩ := ih (col + -1) (by omega) (by omega)
              constructor
              · intro hnone c hc hc0 hclen
                rw [hstep] at hnone
                rcases (by omega : c = col + -1 ∨ c < col + -1) with rfl | hlt
                · exact hwide
                · exact ihn hnone c hlt hc0 hclen
              · intro cn hcn
                rw [hstep] at hcn
                obtain ⟨c, hbc, hlkc, hwc, hbet⟩ := ihs cn hcn
                refine ⟨c, by omega, hlkc, hwc, fun c2 h1 h2 => ?_⟩
                rcases (by omega : c2 = col + -1 ∨ c2 < col + -1) with rfl | hlt
                · exact hwide
                · exact hbet c2 hlt h2



theorem colBeyond_one (a b : Int) : colBeyond 1 a b ↔ a < b := by
  unfold colBeyond
  simp

theorem colBeyond_neg_one (a b : Int) : colBeyond (-1) a b ↔ b < a := by
  unfold colBeyond
  rw [if_neg (by decide : ¬(-1 : Int) = 1)]

theorem rowLookup_some_nonneg {α : Type} {l : List α} {c : Int} {a : α}
    (h : rowLookup l c = some a) : 0 ≤ c ∧ l[c.toNat]? = some a := by
  unfold rowLookup at h
  by_cases h0 : (0 : Int) ≤ c
  · rw [if_pos h0] at h
    exact ⟨h0, h⟩
  · rw [if_neg h0] at h
    cases h

/-- C10: from any starting call node of its depth row, _nextSelectableInRow
with direction 1 or -1 returns either undefined, in which case every in-row
column strictly beyond the starting column in that direction fails the width
test, or a call node of the same row, distinct from the starting node,
sitting strictly beyond the starting column in that direction, whose box
passes the width test, while every column strictly between the start and the
result fails it. -/
theorem next_selectable_in_row_spec (timing : FlameGraphTiming)
    (t : CallNodeTable) (i : Nat) (direction : Int) (d : Nat)
    (row : FlameGraphRow) (hd : t.depth[i]? = some d)
    (hrow : timing[d]? = some row) (hwf : WfRow row)
    (hmem : i ∈ row.callNode) (hdir : direction = 1 ∨ direction = -1) :
    ∃ res : Option Nat,
      nextSelectableInRow timing t i direction = some res ∧
      (res = none →
        ∀ c : Int, colBeyond direction (jsIndexOf row.callNode i) c → 0 ≤ c →
          c < (row.callNode.length : Int) → boxWide row c = false) ∧
      (∀ cn : Nat, res = some cn →
        cn ∈ row.callNode ∧ cn ≠ i ∧
        ∃ c : Int, colBeyond direction (jsIndexOf row.callNode i) c ∧
          rowLookup row.callNode c = some cn ∧ boxWide row c = true ∧
          ∀ c2 : Int, colBeyond direction (jsIndexOf row.callNode i) c2 →
            colBeyond direction c2 c → boxWide row c2 = false) := by
  have hidx : row.callNode.indexOf i < row.callNode.length :=
    List.indexOf_lt_length.mpr hmem
  have hji : jsIndexOf row.callNode i = (row.callNode.indexOf i : Int) := by
    unfold jsIndexOf
    rw [if_pos hmem]
  have hres : nextSelectableInRow timing t i direction
      = some (nextSelectableLoop row direction (row.callNode.length + 1)
          (jsIndexOf row.callNode i)) := by
    unfold nextSelectableInRow
    rw [hd]
    simp only [Option.bind_eq_bind, Option.some_bind]
    rw [hrow]
    simp only [Option.some_bind]
    rfl
  have hsome : ∀ (c : Int) (cn : Nat), rowLookup row.callNode c = some cn →
      colBeyond direction (jsIndexOf row.callNode i) c →
      cn ∈ row.callNode ∧ cn ≠ i := by
    intro c cn hlkc hbc
    obtain ⟨h0, hlk2⟩ := rowLookup_some_nonneg hlkc
    refine ⟨List.getElem?_mem hlk2, ?_⟩
    intro heq
    subst heq
    obtain ⟨hlt, hget⟩ := List.getElem?_eq_some_iff.mp hlk2
    have hgi : row.callNode[row.callNode.indexOf cn] = cn :=
      List.getElem_indexOf hidx
    have hij : c.toNat = row.callNode.indexOf cn :=
      (List.Nodup.getElem_inj_iff hwf.2.2).mp (hget.trans hgi.symm)
    rcases hdir with rfl | rfl
    · rw [colBeyond_one, hji] at hbc
      omega
    · rw [colBeyond_neg_one, hji] at hbc
      omega
  refine ⟨_, hres, ?_, ?_⟩
  · intro hnone c hb hc0 hclen
    rcases hdir with rfl | rfl
    · obtain ⟨hn, _⟩ := nextSelectableLoop_spec_right row
        (row.callNode.length + 1) (jsIndexOf row.callNode i)
        (by rw [hji]; omega) (by rw [hji]; push_cast; omega)
      exact hn hnone c ((colBeyond_one _ _).mp hb) hc0 hclen
    · obtain ⟨hn, _⟩ := nextSelectableLoop_spec_left row
        (row.callNode.length + 1) (jsIndexOf row.callNode i)
        (by rw [hji]; omega) (by rw [hji]; push_cast; omega)
      exact hn hnone c ((colBeyond_neg_one _ _).mp hb) hc0 hclen
  · intro cn hcn
    rcases hdir with rfl | rfl
    · obtain ⟨_, hs⟩ := nextSelectableLoop_spec_right row
        (row.callNode.length + 1) (jsIndexOf row.callNode i)
        (by rw [hji]; omega) (by rw [hji]; push_cast; omega)
      obtain ⟨c, hbc, hlkc, hwc, hbet⟩ := hs cn hcn
      obtain ⟨hcmem, hne⟩ := hsome c cn hlkc ((colBeyond_one _ _).mpr hbc)
      exact ⟨hcmem, hne, c, (colBeyond_one _ _).mpr hbc, hlkc, hwc,
        fun c2 hb1 hb2 => hbet c2 ((colBeyond_one _ _).mp hb1)
          ((colBeyond_one _ _).mp hb2)⟩
    · obtain ⟨_, hs⟩ := nextSelectableLoop_spec_left row
        (row.callNode.length + 1) (jsIndexOf row.callNode i)
        (by rw [hji]; omega) (by rw [hji]; push_cast; omega)
      obtain ⟨c, hbc, hlkc, hwc, hbet⟩ := hs cn hcn
      obtain ⟨hcmem, hne⟩ := hsome c cn hlkc ((colBeyond_neg_one _ _).mpr hbc)
      exact ⟨hcmem, hne, c, (colBeyond_neg_one _ _).mpr hbc, hlkc, hwc,
        fun c2 hb1 hb2 => hbet c2 ((colBeyond_neg_one _ _).mp hb1)
          ((colBeyond_neg_one _ _).mp hb2)⟩



/-- Witness for C10 on the concrete demo row, starting at call node 0 and
moving right: the returned candidate skips the threshold-wide box at column 1
and lands on node 2. -/
theorem next_selectable_in_row_spec_witness :
    ∃ res : Option Nat,
      nextSelectableInRow demoTiming demoTable 0 1 = some res ∧
      (res = none →
        ∀ c : Int, colBeyond 1 (jsIndexOf demoRow.callNode 0) c → 0 ≤ c →
          c < (demoRow.callNode.length : Int) → boxWide demoRow c = false) ∧
      (∀ cn : Nat, res = some cn →
        cn ∈ demoRow.callNode ∧ cn ≠ 0 ∧
        ∃ c : Int, colBeyond 1 (jsIndexOf demoRow.callNode 0) c ∧
          rowLookup demoRow.callNode c = some cn ∧ boxWide demoRow c = true ∧
          ∀ c2 : Int, colBeyond 1 (jsIndexOf demoRow.callNode 0) c2 →
            colBeyond 1 c2 c → boxWide demoRow c2 = false) :=
  next_selectable_in_row_spec demoTiming demoTable 0 1 0 demoRow rfl rfl
    ⟨rfl, rfl, by decide⟩ (by decide) (Or.inl rfl)



/-- Witness for C1: with every sharing option checked, the publish pipeline
returns the demo profile unchanged with a null committed range and the
identity thread mapping. -/
theorem sanitize_null_directive_is_identity_witness :
    getSanitizedProfile ⟨true, true, true, true, true, true⟩ demoProfile
      ⟨0, 1⟩ [] [] [] [] =
      .ok ⟨demoProfile, none, identityThreadMap demoProfile.threads.length⟩ :=
  (sanitize_null_directive_is_identity ⟨true, true, true, true, true, true⟩
    demoProfile ⟨0, 1⟩ [] [] [] []).2.2 (by decide)

end Profiler
